import Mathlib

/-!
Shallow embedding of the dingo-store client SDK's batch scatter/gather
orchestrator (`src/sdk/raw_kv_impl.cc`, class `RawKV::RawKVImpl`) and of the
nullable int32 row codec (`integer_schema.cc`,
`DingoSchema<optional<int32_t>>`).

Keys are byte strings, modelled as `List Nat` with the lexicographic order
(the C++ code compares `std::string`s byte-lexicographically).  The meta
cache and the RPC layer are external collaborators of the functions under
study; they enter the embedding as oracle parameters:

* `lookup : Key -> Except Status Region` stands for
  `MetaCache::LookupRegionByKey` (`Except.error st` is a failed lookup
  returning status `st`);
* `call` oracles stand for `StoreRpcController::Call` together with the
  fields extracted from the RPC response by the per-sub-batch processor.

The orchestrator functions themselves are translated statement by
statement from the source.  Concurrency in the dispatch phase is benign
(each worker writes only its own `SubBatchState`, joined before the merge),
so the dispatch is embedded as a `List.map` over sub-batches.
-/

namespace DingoSdk

/-- Byte-string key; lexicographic order as for `std::string`. -/
abbrev Key := List Nat

/-- Status variant, after `sdk/status.h`.  Only the constructors the
orchestrator distinguishes are separated; every message-carrying
constructor keeps its message. -/
inductive Status where
  | Ok : Status
  | NotFound : Status
  | RegionNotFound : Status
  | EpochMismatch : Status
  | LeaderChanged : Status
  | Timeout : Status
  | Network : Status
  | IllegalState (msg : String) : Status
  | InvalidArgument (msg : String) : Status
  | Internal (msg : String) : Status
deriving DecidableEq, Repr

/-- Embeds `Status::IsOK()`. -/
def Status.IsOK : Status → Bool
  | .Ok => true
  | _ => false

/-- Discriminator for the `IllegalState` variant. -/
def Status.isIllegalState : Status → Bool
  | .IllegalState _ => true
  | _ => false

/-- Discriminator for the `InvalidArgument` variant. -/
def Status.isInvalidArgument : Status → Bool
  | .InvalidArgument _ => true
  | _ => false

/-- Region descriptor: id plus half-open key range, after `sdk/meta_cache.h`
(`Region::RegionId`, `Region::Range`).  Epoch and replica data are not
consulted by the orchestrator logic under study. -/
structure Region where
  id : Int
  start_key : Key
  end_key : Key
deriving DecidableEq, Repr

/-- Oracle type for `MetaCache::LookupRegionByKey`. -/
abbrev Lookup := Key → Except Status Region

/-- Key-value pair, after `KVPair` in `sdk/client.h`. -/
structure KVPair where
  key : Key
  value : Key
deriving DecidableEq, Repr

/-- Per-key operation outcome, after `KeyOpState` in `sdk/client.h`. -/
structure KeyOpState where
  key : Key
  state : Bool
deriving DecidableEq, Repr

/-! ### Partition phase

Each batch operation starts with the same loop (e.g. `BatchGet` lines
78-90): look up each input's region, abort on the first failed lookup,
and group the inputs into `region_id -> payload vector` (an
`unordered_map`, embedded as an association list in first-encounter
order) together with a `region_id -> Region` map retaining the first
region object seen for each id. -/

/-- Appends one input to the group of its region id, creating the group at
the end if the id is new.  This is the effect of one iteration of the C++
grouping loop on the pair of maps (`region_id_to_region` keeps the first
region seen for an id; the payload is appended to `region_keys[id]`). -/
def addToGroup {α : Type} (acc : List (Region × List α)) (r : Region) (x : α) :
    List (Region × List α) :=
  match acc with
  | [] => [(r, [x])]
  | (r0, xs) :: rest =>
      if r0.id = r.id then (r0, xs ++ [x]) :: rest
      else (r0, xs) :: addToGroup rest r x

/-- The partition loop shared by all five batch operations: for each input
element call `LookupRegionByKey` on its key; abort with the lookup's status
on the first failure; otherwise group by region id. -/
def groupByRegion {α : Type} (lookup : Lookup) (keyOf : α → Key) :
    List α → List (Region × List α) → Except Status (List (Region × List α))
  | [], acc => .ok acc
  | x :: xs, acc =>
      match lookup (keyOf x) with
      | .error st => .error st
      | .ok r => groupByRegion lookup keyOf xs (addToGroup acc r x)

/-- The status of the first input element whose region lookup fails, in
input order; `none` when every lookup succeeds. -/
def firstLookupError {α : Type} (lookup : Lookup) (keyOf : α → Key) :
    List α → Option Status
  | [] => none
  | x :: xs =>
      match lookup (keyOf x) with
      | .error st => some st
      | .ok _ => firstLookupError lookup keyOf xs

/-! ### Dispatch and reduce phases -/

/-- One sub-batch processor run (`ProcessSubBatchGet` / `...PutIfAbsent` /
`...CompareAndSet`): the controller's status becomes the sub-batch status,
and the response payloads are extracted only when the call succeeded. -/
def processSub {α β : Type} (call : Region → List α → Status × List β)
    (g : Region × List α) : Status × List β :=
  let out := call g.1 g.2
  (out.1, if out.1.IsOK then out.2 else [])

/-- Reduce loop of the payload-returning batch operations (`BatchGet` lines
127-146, and the analogous loops of `BatchPutIfAbsent` and
`BatchCompareAndSet`): the first non-Ok sub-batch status wins, later
failures are only logged, and every Ok sub-batch appends its payloads to
the output. -/
def mergeSubStates {β : Type} (subs : List (Status × List β)) : Status × List β :=
  subs.foldl
    (fun acc s =>
      if !s.1.IsOK then (if acc.1.IsOK then s.1 else acc.1, acc.2)
      else (acc.1, acc.2 ++ s.2))
    (Status.Ok, [])

/-- Reduce loop of the status-only batch operations (`BatchPut` lines
229-241, `BatchDelete` lines 441-453): the first non-Ok sub-batch status
wins, later failures are only logged. -/
def mergeStatuses (sts : List Status) : Status :=
  sts.foldl
    (fun acc st => if !st.IsOK then (if acc.IsOK then st else acc) else acc)
    Status.Ok

/-- The dispatch phase of the payload-returning batch operations: one
worker thread per sub-batch starting from index 1, with the first sub-batch
processed inline via `ProcessSubBatchX(sub_batch_state.data())`.  That
inline call is unconditional in the C++; when the sub-batch vector is
empty, `data()` does not point at a valid `SubBatchState` and the processor
dereferences it — embedded as `none` (undefined behavior). -/
def dispatchAndMerge {α β : Type} (call : Region → List α → Status × List β)
    (gs : List (Region × List α)) : Option (Status × List β) :=
  match gs with
  | [] => none
  | _ :: _ => some (mergeSubStates (gs.map (processSub call)))

/-- Dispatch phase of the status-only batch operations; same unconditional
inline processing of the first sub-batch as `dispatchAndMerge`. -/
def dispatchAndMergeStatus {α : Type} (call : Region → List α → Status)
    (gs : List (Region × List α)) : Option Status :=
  match gs with
  | [] => none
  | _ :: _ => some (mergeStatuses (gs.map (fun g => call g.1 g.2)))

/-! ### The five batch operations

Output parameters of the C++ functions are modelled by passing the
parameter's pre-call value in and returning its post-call value: an early
return leaves the output unchanged. -/

/-- `RawKV::RawKVImpl::BatchGet` (lines 73-147).
`call r ks` is the controller status and response kvs for the sub-batch of
keys `ks` sent to region `r`. -/
def batchGet (lookup : Lookup) (call : Region → List Key → Status × List KVPair)
    (keys : List Key) (kvs0 : List KVPair) : Option (Status × List KVPair) :=
  match groupByRegion lookup (fun k => k) keys [] with
  | .error st => some (st, kvs0)
  | .ok gs => dispatchAndMerge call gs

/-- `RawKV::RawKVImpl::BatchPut` (lines 174-242). -/
def batchPut (lookup : Lookup) (call : Region → List KVPair → Status)
    (kvs : List KVPair) : Option Status :=
  match groupByRegion lookup (fun kv => kv.key) kvs [] with
  | .error st => some st
  | .ok gs => dispatchAndMergeStatus call gs

/-- `RawKV::RawKVImpl::BatchPutIfAbsent` (lines 282-357). -/
def batchPutIfAbsent (lookup : Lookup)
    (call : Region → List KVPair → Status × List KeyOpState)
    (kvs : List KVPair) (states0 : List KeyOpState) :
    Option (Status × List KeyOpState) :=
  match groupByRegion lookup (fun kv => kv.key) kvs [] with
  | .error st => some (st, states0)
  | .ok gs => dispatchAndMerge call gs

/-- `RawKV::RawKVImpl::BatchDelete` (lines 387-454). -/
def batchDelete (lookup : Lookup) (call : Region → List Key → Status)
    (keys : List Key) : Option Status :=
  match groupByRegion lookup (fun k => k) keys [] with
  | .error st => some st
  | .ok gs => dispatchAndMergeStatus call gs

/-- Error message of the `BatchCompareAndSet` size check (the C++ formats
the two sizes into the message; the formatted text is irrelevant to the
claims). -/
def casSizeMsg : String := "kvs size must equal expected_values size"

/-- `RawKV::RawKVImpl::BatchCompareAndSet` (lines 655-745).  Inputs are the
kv pairs zipped with their expected values, as produced by the C++ indexed
loop after the size check. -/
def batchCompareAndSet (lookup : Lookup)
    (call : Region → List (KVPair × Key) → Status × List KeyOpState)
    (kvs : List KVPair) (expected_values : List Key)
    (states0 : List KeyOpState) : Option (Status × List KeyOpState) :=
  if kvs.length ≠ expected_values.length then
    some (Status.InvalidArgument casSizeMsg, states0)
  else
    match groupByRegion lookup (fun p => p.1.key) (kvs.zip expected_values) [] with
    | .error st => some (st, states0)
    | .ok gs => dispatchAndMerge call gs

/-! ### DeleteRange (lines 463-616)

The multi-region walker.  The C++ groups the emitted `DeleteRangeContext`s
in an `unordered_map<int64_t, vector<DeleteRangeContext>>`; since every
region is visited at most once along a well-formed walk, the map is
embedded as the list of `(region id, context)` pairs in emission order.
The `while (!next.empty())` loop carries no structural termination measure
in the source (it terminates because region end keys strictly increase),
so it is embedded with explicit fuel; `none` means the fuel ran out. -/

/-- One emitted per-region sub-range, after the local
`struct DeleteRangeContext` of `RawKV::RawKVImpl::DeleteRange`. -/
structure DeleteRangeContext where
  start : Key
  with_start : Bool
  end_ : Key
  with_end : Bool
deriving DecidableEq, Repr

/-- The `while (!next.empty())` loop of `DeleteRange` (lines 516-544): look
up the region containing `next`, apply the three-way comparison of `end`
against the region's end key, emit one context with
`{start = next, with_start = true}`, and either stop, continue at the
region's end key, or stop scheduling the compensating point delete.
Returns the emitted list and the final `delete_end_key` flag. -/
def deleteRangeLoop (lookup : Lookup) (e : Key) (we : Bool) :
    Nat → Key → Option (Except Status (List (Int × DeleteRangeContext) × Bool))
  | 0, next => if next = [] then some (.ok ([], false)) else none
  | fuel + 1, next =>
      if next = [] then some (.ok ([], false))
      else
        match lookup next with
        | .error st => some (.error st)
        | .ok r =>
            if e < r.end_key then
              some (.ok ([(r.id, ⟨next, true, e, we⟩)], false))
            else if r.end_key < e then
              match deleteRangeLoop lookup e we fuel r.end_key with
              | some (.ok (rest, dek)) =>
                  some (.ok ((r.id, ⟨next, true, r.end_key, false⟩) :: rest, dek))
              | other => other
            else
              some (.ok ([(r.id, ⟨next, true, e, false⟩)], we))

/-- Error message of the `DeleteRange` precondition check. -/
def drPrecondMsg : String := "start key must < end key"

/-- The walk phase of `RawKV::RawKVImpl::DeleteRange` (lines 465-545): the
`start >= end` precondition check, the lookup of the region containing
`start`, the "process start key" block (lines 491-510) and the
"process others" loop.  Produces the emitted `(region id, context)` list
and the `delete_end_key` flag. -/
def deleteRangePartition (lookup : Lookup) (s e : Key) (ws we : Bool)
    (fuel : Nat) :
    Option (Except Status (List (Int × DeleteRangeContext) × Bool)) :=
  if e ≤ s then some (.error (Status.IllegalState drPrecondMsg))
  else
    match lookup s with
    | .error st => some (.error st)
    | .ok r0 =>
        if e < r0.end_key then
          some (.ok ([(r0.id, ⟨s, ws, e, we⟩)], false))
        else if r0.end_key < e then
          match deleteRangeLoop lookup e we fuel r0.end_key with
          | some (.ok (rest, dek)) =>
              some (.ok ((r0.id, ⟨s, ws, r0.end_key, false⟩) :: rest, dek))
          | other => other
        else
          some (.ok ([(r0.id, ⟨s, ws, e, false⟩)], we))

/-- The reduce phase of `DeleteRange` (lines 583-613): the compensating
point delete of `end` (when `delete_end_key` was set) contributes `+1` on
success or becomes the recorded failure; then each sub-batch contributes
its `delete_count` when Ok, or becomes the recorded failure if none was
recorded yet.  `delPart` is `some st` when the point delete ran with
outcome `st`, `none` when it was not scheduled. -/
def deleteRangeReduce (delPart : Option Status) (subs : List (Status × Int)) :
    Status × Int :=
  let init : Status × Int :=
    match delPart with
    | none => (Status.Ok, 0)
    | some st => if st.IsOK then (Status.Ok, 1) else (st, 0)
  subs.foldl
    (fun acc sub =>
      if !sub.1.IsOK then (if acc.1.IsOK then sub.1 else acc.1, acc.2)
      else (acc.1, acc.2 + sub.2))
    init

/-- `RawKV::RawKVImpl::DeleteRange` end to end.  `callDR i c` is the
controller status and response `delete_count` of the `KvDeleteRange`
sub-request `c` sent to the region with id `i`
(`ProcessSubBatchDeleteRange`); `callDel k` is the outcome of the
compensating `Delete(end)`.  `cnt0` is the pre-call value of the
`delete_count` output parameter (early returns leave it unchanged). -/
def deleteRangeOp (lookup : Lookup)
    (callDR : Int → DeleteRangeContext → Status × Int)
    (callDel : Key → Status) (s e : Key) (ws we : Bool) (cnt0 : Int)
    (fuel : Nat) : Option (Status × Int) :=
  match deleteRangePartition lookup s e ws we fuel with
  | none => none
  | some (.error st) => some (st, cnt0)
  | some (.ok (l, dek)) =>
      let subs := l.map (fun p => callDR p.1 p.2)
      some (deleteRangeReduce (if dek then some (callDel e) else none) subs)

/-! ### Specification-side notions for the walker claims -/

/-- Set of keys deleted by one sub-range request, reading the
`with_start` / `with_end` flags as the usual interval inclusivity. -/
def ctxCovers (c : DeleteRangeContext) (k : Key) : Prop :=
  (if c.with_start then c.start ≤ k else c.start < k) ∧
  (if c.with_end then k ≤ c.end_ else k < c.end_)

/-- The specification's description of the walker, transcribed from the
spec: at the current position `cur` (with inclusivity `ws`), the region `r`
containing `cur` is looked up and the three-way comparison of `end` with
`r.end_key` decides whether to emit a final sub-range, to emit a boundary
sub-range with `with_end = false` (scheduling the point delete exactly when
the user asked for an inclusive end), or to emit up to `r.end_key` and
continue at `r.end_key` with `with_start = true`. -/
inductive WalkRel (lookup : Lookup) (e : Key) (we : Bool) :
    Key → Bool → List (Int × DeleteRangeContext) → Bool → Prop where
  | last (cur : Key) (ws : Bool) (r : Region) :
      lookup cur = .ok r → e < r.end_key →
      WalkRel lookup e we cur ws [(r.id, ⟨cur, ws, e, we⟩)] false
  | boundary (cur : Key) (ws : Bool) (r : Region) :
      lookup cur = .ok r → e = r.end_key →
      WalkRel lookup e we cur ws [(r.id, ⟨cur, ws, e, false⟩)] we
  | step (cur : Key) (ws : Bool) (r : Region)
      (rest : List (Int × DeleteRangeContext)) (dek : Bool) :
      lookup cur = .ok r → r.end_key < e →
      WalkRel lookup e we r.end_key true rest dek →
      WalkRel lookup e we cur ws
        ((r.id, ⟨cur, ws, r.end_key, false⟩) :: rest) dek

/-- First non-Ok status of a list, `Status.Ok` when all are Ok: the
specification's "first encountered non-Ok status" aggregation rule. -/
def firstNonOk (sts : List Status) : Status :=
  match sts.find? (fun st => !st.IsOK) with
  | some st => st
  | none => Status.Ok

/-! ### Nullable int32 row codec (`integer_schema.cc`)

`Buf` is modelled as the list of bytes written so far (`Buf::Write`
appends one byte; `Buf::EnsureRemainder` only manages capacity and does
not change the written contents, so it has no counterpart here).  The
int32 value is carried as an `Int` and reinterpreted as its 32-bit
two's-complement pattern exactly where the C++ casts `int32_t` to
`uint32_t`.  The concrete values of the `k_null` / `k_not_null` tag bytes
live in the base schema header, which is not part of the sources; the
claims under study do not depend on them. -/

/-- Null-marker byte written before a null payload. -/
def kNull : Nat := 0

/-- Marker byte written before a present payload. -/
def kNotNull : Nat := 1

/-- `Buf::Write` of one byte. -/
def bufWrite (buf : List Nat) (b : Nat) : List Nat := buf ++ [b % 256]

/-- `DingoSchema<optional<int32_t>>::InternalEncodeNull`: four zero bytes. -/
def internalEncodeNull (buf : List Nat) : List Nat :=
  bufWrite (bufWrite (bufWrite (bufWrite buf 0) 0) 0) 0

/-- `DingoSchema<optional<int32_t>>::InternalEncodeKey`: big-endian bytes
of the 32-bit pattern with the sign bit of the top byte flipped. -/
def internalEncodeKey (data : Int) (buf : List Nat) : List Nat :=
  let u : Nat := (data % 4294967296).toNat
  bufWrite (bufWrite (bufWrite (bufWrite buf ((u / 16777216) ^^^ 128))
    (u / 65536)) (u / 256)) u

/-- `DingoSchema<optional<int32_t>>::InternalEncodeValue`: plain big-endian
bytes of the 32-bit pattern. -/
def internalEncodeValue (data : Int) (buf : List Nat) : List Nat :=
  let u : Nat := (data % 4294967296).toNat
  bufWrite (bufWrite (bufWrite (bufWrite buf (u / 16777216)) (u / 65536))
    (u / 256)) u

/-- `DingoSchema<optional<int32_t>>::EncodeKey` (lines 73-91 of the
fragment).  The function returns `void` in C++; its only observable effect
is the bytes appended to the buffer, so the embedding returns the new
buffer contents.  In the `allow_null = false`, `data = none` branch the
source contains only the comment `// WRONG EMPTY DATA` and falls through:
nothing is written and no error is surfaced. -/
def encodeKeyInt32 (allow_null : Bool) (data : Option Int) (buf : List Nat) :
    List Nat :=
  match allow_null, data with
  | true, some v => internalEncodeKey v (bufWrite buf kNotNull)
  | true, none => internalEncodeNull (bufWrite buf kNull)
  | false, some v => internalEncodeKey v buf
  | false, none => buf

/-- `DingoSchema<optional<int32_t>>::EncodeValue` (lines 107-125 of the
fragment); same branch structure as `encodeKeyInt32`, including the silent
`// WRONG EMPTY DATA` branch. -/
def encodeValueInt32 (allow_null : Bool) (data : Option Int) (buf : List Nat) :
    List Nat :=
  match allow_null, data with
  | true, some v => internalEncodeValue v (bufWrite buf kNotNull)
  | true, none => internalEncodeNull (bufWrite buf kNull)
  | false, some v => internalEncodeValue v buf
  | false, none => buf

/-! ### Concrete three-region topology used by the witnesses -/

/-- Test region covering keys from byte 10 to byte 20. -/
def regA : Region := ⟨1, [10], [20]⟩

/-- Test region covering keys from byte 20 to byte 30. -/
def regB : Region := ⟨2, [20], [30]⟩

/-- Test region covering keys from byte 30 to byte 40. -/
def regC : Region := ⟨3, [30], [40]⟩

/-- Lookup oracle over the three test regions: containment search, with
`RegionNotFound` outside their union. -/
def testLookup : Lookup := fun k =>
  if regA.start_key ≤ k ∧ k < regA.end_key then .ok regA
  else if regB.start_key ≤ k ∧ k < regB.end_key then .ok regB
  else if regC.start_key ≤ k ∧ k < regC.end_key then .ok regC
  else .error Status.RegionNotFound

/-! ### Concrete oracles used by the witnesses -/

/-- Test call oracle for `batchGet` witnesses: region 2 times out, other
regions answer each key with value byte 1. -/
def callGetTest : Region → List Key → Status × List KVPair :=
  fun r ks =>
    if r.id = 2 then (Status.Timeout, [])
    else (Status.Ok, ks.map (fun k => ⟨k, [1]⟩))

/-- Test call oracle for `KvDeleteRange` sub-batches: region 2 times out
reporting 7 deletions, other regions succeed with 3 deletions. -/
def callDRTest : Int → DeleteRangeContext → Status × Int :=
  fun i _ => if i = 2 then (Status.Timeout, 7) else (Status.Ok, 3)

/-- Test point-delete oracle: always succeeds. -/
def callDelTest : Key → Status := fun _ => Status.Ok

/-- Test call oracle for `batchCompareAndSet` witnesses: always succeeds
applying every key. -/
def callCASTest : Region → List (KVPair × Key) → Status × List KeyOpState :=
  fun _ ps => (Status.Ok, ps.map (fun p => ⟨p.1.key, true⟩))

/-! ### Lemmas on statuses and the reduce folds -/

theorem Status.IsOK_iff (st : Status) : st.IsOK = true ↔ st = Status.Ok := by
  cases st <;> simp [Status.IsOK]

theorem Status.not_IsOK_iff (st : Status) : st.IsOK = false ↔ st ≠ Status.Ok := by
  cases st <;> simp [Status.IsOK]

theorem firstNonOk_nil : firstNonOk [] = Status.Ok := rfl

theorem firstNonOk_cons (st : Status) (sts : List Status) :
    firstNonOk (st :: sts) = if st.IsOK then firstNonOk sts else st := by
  by_cases h : st.IsOK
  · simp [firstNonOk, List.find?_cons, h]
  · simp at h
    simp [firstNonOk, List.find?_cons, h]

theorem firstNonOk_eq_ok_iff (sts : List Status) :
    firstNonOk sts = Status.Ok ↔ ∀ st ∈ sts, st = Status.Ok := by
  induction sts with
  | nil => simp [firstNonOk_nil]
  | cons st rest ih =>
      rw [firstNonOk_cons]
      cases hs : st.IsOK
      · have hne : st ≠ Status.Ok := (Status.not_IsOK_iff st).mp hs
        simp [hne]
      · have heq : st = Status.Ok := (Status.IsOK_iff st).mp hs
        simp [heq, ih]

theorem firstNonOk_find? (sts : List Status) (st : Status)
    (h : sts.find? (fun x => !x.IsOK) = some st) : firstNonOk sts = st := by
  simp [firstNonOk, h]

theorem firstNonOk_cases (sts : List Status) :
    firstNonOk sts = Status.Ok ∨ firstNonOk sts ∈ sts := by
  unfold firstNonOk
  cases h : sts.find? (fun x => !x.IsOK) with
  | none => exact Or.inl rfl
  | some st => exact Or.inr (List.mem_of_find?_eq_some h)

theorem mergeSubStates_foldl {β : Type} (subs : List (Status × List β))
    (res : Status) (acc : List β) :
    subs.foldl
      (fun acc s =>
        if !s.1.IsOK then (if acc.1.IsOK then s.1 else acc.1, acc.2)
        else (acc.1, acc.2 ++ s.2))
      (res, acc)
    = ((if res.IsOK then firstNonOk (subs.map Prod.fst) else res),
       acc ++ (subs.filter (fun s => s.1.IsOK)).flatMap (fun s => s.2)) := by
  induction subs generalizing res acc with
  | nil =>
      cases hres : res.IsOK
      · simp [hres]
      · simp [hres, (Status.IsOK_iff res).mp hres, firstNonOk_nil]
  | cons s rest ih =>
      cases hs : s.1.IsOK
      · cases hres : res.IsOK
        · simp only [List.foldl_cons, hs, hres, Bool.not_false, if_true,
            if_false]
          rw [ih]
          simp [hres, hs, firstNonOk_cons, List.filter_cons]
        · simp only [List.foldl_cons, hs, hres, Bool.not_false, if_true]
          rw [ih]
          have hok : (s.1).IsOK = true → False := by simp [hs]
          simp [hres, hs, firstNonOk_cons, List.filter_cons,
            (Status.not_IsOK_iff s.1).mp hs]
      · simp only [List.foldl_cons, hs, Bool.not_true, if_false]
        rw [ih]
        simp [hs, firstNonOk_cons, List.filter_cons, List.append_assoc]

theorem mergeSubStates_eq {β : Type} (subs : List (Status × List β)) :
    mergeSubStates subs
    = (firstNonOk (subs.map Prod.fst),
       (subs.filter (fun s => s.1.IsOK)).flatMap (fun s => s.2)) := by
  unfold mergeSubStates
  rw [mergeSubStates_foldl]
  simp [Status.IsOK]

theorem mergeStatuses_foldl (sts : List Status) (res : Status) :
    sts.foldl
      (fun acc st => if !st.IsOK then (if acc.IsOK then st else acc) else acc)
      res
    = if res.IsOK then firstNonOk sts else res := by
  induction sts generalizing res with
  | nil =>
      cases hres : res.IsOK
      · simp [hres]
      · simp [hres, (Status.IsOK_iff res).mp hres, firstNonOk_nil]
  | cons st rest ih =>
      cases hs : st.IsOK
      · cases hres : res.IsOK
        · simp only [List.foldl_cons, hs, hres, Bool.not_false, if_true,
            if_false]
          rw [ih]
          simp [hres]
        · simp only [List.foldl_cons, hs, hres, Bool.not_false, if_true]
          rw [ih]
          simp [hres, hs, firstNonOk_cons, (Status.not_IsOK_iff st).mp hs]
      · simp only [List.foldl_cons, hs, Bool.not_true, if_false]
        rw [ih]
        simp [hs, firstNonOk_cons]

theorem mergeStatuses_eq (sts : List Status) :
    mergeStatuses sts = firstNonOk sts := by
  unfold mergeStatuses
  rw [mergeStatuses_foldl]
  simp [Status.IsOK]

/-! ### Lemmas on the partition phase -/

theorem addToGroup_flatMap {α : Type} (acc : List (Region × List α))
    (r : Region) (x : α) :
    ((addToGroup acc r x).flatMap (fun g => g.2)).Perm
      (acc.flatMap (fun g => g.2) ++ [x]) := by
  induction acc with
  | nil => simp [addToGroup]
  | cons g rest ih =>
      obtain ⟨r0, xs⟩ := g
      by_cases h : r0.id = r.id
      · simp only [addToGroup, if_pos h, List.flatMap_cons, List.append_assoc]
        exact List.Perm.append_left xs
          (@List.perm_append_comm _ [x] (rest.flatMap (fun g => g.2)))
      · simp only [addToGroup, if_neg h, List.flatMap_cons, List.append_assoc]
        exact List.Perm.append_left xs ih

theorem addToGroup_mem {α : Type} (acc : List (Region × List α)) (r : Region)
    (x : α) (p : α → Int → Prop)
    (hacc : ∀ g ∈ acc, ∀ y ∈ g.2, p y g.1.id) (hx : p x r.id) :
    ∀ g ∈ addToGroup acc r x, ∀ y ∈ g.2, p y g.1.id := by
  induction acc with
  | nil =>
      intro g hg y hy
      simp [addToGroup] at hg
      subst hg
      simp at hy
      subst hy
      exact hx
  | cons g0 rest ih =>
      obtain ⟨r0, xs⟩ := g0
      by_cases h : r0.id = r.id
      · simp only [addToGroup, if_pos h]
        intro g hg y hy
        rcases List.mem_cons.mp hg with hg | hg
        · subst hg
          rcases List.mem_append.mp hy with hy | hy
          · exact hacc (r0, xs) (List.mem_cons_self _ _) y hy
          · rw [List.mem_singleton] at hy
            rw [hy]
            rw [show ((r0, xs ++ [x]) : Region × List α).1.id = r.id from h]
            exact hx
        · exact hacc g (List.mem_cons_of_mem _ hg) y hy
      · simp only [addToGroup, if_neg h]
        intro g hg y hy
        rcases List.mem_cons.mp hg with hg | hg
        · subst hg
          exact hacc (r0, xs) (List.mem_cons_self _ _) y hy
        · exact ih (fun g hg => hacc g (List.mem_cons_of_mem _ hg)) g hg y hy

theorem addToGroup_ids {α : Type} (acc : List (Region × List α)) (r : Region)
    (x : α) :
    (addToGroup acc r x).map (fun g => g.1.id)
    = if r.id ∈ acc.map (fun g => g.1.id) then acc.map (fun g => g.1.id)
      else acc.map (fun g => g.1.id) ++ [r.id] := by
  induction acc with
  | nil => simp [addToGroup]
  | cons g0 rest ih =>
      obtain ⟨r0, xs⟩ := g0
      by_cases h : r0.id = r.id
      · simp [addToGroup, h]
      · have hne : ¬ r.id = r0.id := fun hc => h hc.symm
        by_cases hmem : r.id ∈ rest.map (fun g => g.1.id)
        · simp [addToGroup, h, ih, hmem, hne]
        · simp [addToGroup, h, ih, hmem, hne]

theorem addToGroup_nodup {α : Type} (acc : List (Region × List α))
    (r : Region) (x : α) (h : (acc.map (fun g => g.1.id)).Nodup) :
    ((addToGroup acc r x).map (fun g => g.1.id)).Nodup := by
  rw [addToGroup_ids]
  by_cases hmem : r.id ∈ acc.map (fun g => g.1.id)
  · rw [if_pos hmem]
    exact h
  · rw [if_neg hmem]
    simp [List.nodup_append, h, hmem]

theorem addToGroup_exists_id {α : Type} (acc : List (Region × List α))
    (r : Region) (x : α) (i : Int) :
    (∃ g ∈ addToGroup acc r x, g.1.id = i)
    ↔ ((∃ g ∈ acc, g.1.id = i) ∨ r.id = i) := by
  have h1 : ∀ (l : List (Region × List α)),
      (∃ g ∈ l, g.1.id = i) ↔ i ∈ l.map (fun g => g.1.id) := by
    intro l
    simp [List.mem_map, eq_comm]
  rw [h1, h1, addToGroup_ids]
  by_cases hmem : r.id ∈ acc.map (fun g => g.1.id)
  · rw [if_pos hmem]
    constructor
    · exact Or.inl
    · intro hc
      rcases hc with hc | hc
      · exact hc
      · rw [← hc]
        exact hmem
  · rw [if_neg hmem]
    simp [List.mem_append, eq_comm]

theorem groupByRegion_ok {α : Type} (lookup : Lookup) (keyOf : α → Key) :
    ∀ (xs : List α) (acc gs : List (Region × List α)),
      groupByRegion lookup keyOf xs acc = .ok gs →
      (gs.flatMap (fun g => g.2)).Perm (acc.flatMap (fun g => g.2) ++ xs)
      ∧ ((∀ g ∈ acc, ∀ y ∈ g.2,
            ∃ rr, lookup (keyOf y) = .ok rr ∧ rr.id = g.1.id) →
         ∀ g ∈ gs, ∀ y ∈ g.2,
            ∃ rr, lookup (keyOf y) = .ok rr ∧ rr.id = g.1.id)
      ∧ ((acc.map (fun g => g.1.id)).Nodup → (gs.map (fun g => g.1.id)).Nodup)
      ∧ (∀ i : Int, (∃ g ∈ gs, g.1.id = i) ↔
           ((∃ g ∈ acc, g.1.id = i)
            ∨ ∃ y ∈ xs, ∃ rr, lookup (keyOf y) = .ok rr ∧ rr.id = i)) := by
  intro xs
  induction xs with
  | nil =>
      intro acc gs h
      simp only [groupByRegion] at h
      cases h
      refine ⟨by simp, fun hb => hb, fun hb => hb, fun i => by simp⟩
  | cons x xs ih =>
      intro acc gs h
      simp only [groupByRegion] at h
      cases hl : lookup (keyOf x) with
      | error st =>
          rw [hl] at h
          exact absurd h (by simp)
      | ok r =>
          rw [hl] at h
          obtain ⟨hperm, hmem, hnodup, hids⟩ := ih (addToGroup acc r x) gs h
          refine ⟨?_, ?_, ?_, ?_⟩
          · refine hperm.trans ?_
            refine (List.Perm.append_right xs (addToGroup_flatMap acc r x)).trans ?_
            rw [List.append_assoc]
            exact List.Perm.refl _
          · intro hbase
            exact hmem (addToGroup_mem acc r x
              (fun y i => ∃ rr, lookup (keyOf y) = .ok rr ∧ rr.id = i)
              hbase ⟨r, hl, rfl⟩)
          · intro hbase
            exact hnodup (addToGroup_nodup acc r x hbase)
          · intro i
            rw [hids i, addToGroup_exists_id]
            simp only [List.mem_cons]
            constructor
            · intro hc
              rcases hc with (hc | hc) | hc
              · exact Or.inl hc
              · exact Or.inr ⟨x, Or.inl rfl, r, hl, hc⟩
              · rcases hc with ⟨y, hy, rr, hrr, hid⟩
                exact Or.inr ⟨y, Or.inr hy, rr, hrr, hid⟩
            · intro hc
              rcases hc with hc | ⟨y, hy | hy, rr, hrr, hid⟩
              · exact Or.inl (Or.inl hc)
              · subst hy
                rw [hl] at hrr
                cases hrr
                exact Or.inl (Or.inr hid)
              · exact Or.inr ⟨y, hy, rr, hrr, hid⟩

theorem groupByRegion_error {α : Type} (lookup : Lookup) (keyOf : α → Key) :
    ∀ (xs : List α) (acc : List (Region × List α)) (st : Status),
      groupByRegion lookup keyOf xs acc = .error st
      ↔ firstLookupError lookup keyOf xs = some st := by
  intro xs
  induction xs with
  | nil =>
      intro acc st
      simp [groupByRegion, firstLookupError]
  | cons x xs ih =>
      intro acc st
      simp only [groupByRegion, firstLookupError]
      cases hl : lookup (keyOf x) with
      | error st0 => simp
      | ok r => exact ih (addToGroup acc r x) st

/-! ### Success-path unfolding of the five batch operations -/

theorem batchGet_dispatch (lookup : Lookup)
    (call : Region → List Key → Status × List KVPair) (keys : List Key)
    (kvs0 : List KVPair) (gs : List (Region × List Key))
    (h : groupByRegion lookup (fun k => k) keys [] = .ok gs) (hne : gs ≠ []) :
    batchGet lookup call keys kvs0
    = some (mergeSubStates (gs.map (processSub call))) := by
  unfold batchGet
  rw [h]
  cases gs with
  | nil => exact absurd rfl hne
  | cons a l => rfl

theorem batchPut_dispatch (lookup : Lookup)
    (call : Region → List KVPair → Status) (kvs : List KVPair)
    (gs : List (Region × List KVPair))
    (h : groupByRegion lookup (fun kv => kv.key) kvs [] = .ok gs)
    (hne : gs ≠ []) :
    batchPut lookup call kvs
    = some (mergeStatuses (gs.map (fun g => call g.1 g.2))) := by
  unfold batchPut
  rw [h]
  cases gs with
  | nil => exact absurd rfl hne
  | cons a l => rfl

theorem batchPutIfAbsent_dispatch (lookup : Lookup)
    (call : Region → List KVPair → Status × List KeyOpState)
    (kvs : List KVPair) (states0 : List KeyOpState)
    (gs : List (Region × List KVPair))
    (h : groupByRegion lookup (fun kv => kv.key) kvs [] = .ok gs)
    (hne : gs ≠ []) :
    batchPutIfAbsent lookup call kvs states0
    = some (mergeSubStates (gs.map (processSub call))) := by
  unfold batchPutIfAbsent
  rw [h]
  cases gs with
  | nil => exact absurd rfl hne
  | cons a l => rfl

theorem batchDelete_dispatch (lookup : Lookup)
    (call : Region → List Key → Status) (keys : List Key)
    (gs : List (Region × List Key))
    (h : groupByRegion lookup (fun k => k) keys [] = .ok gs) (hne : gs ≠ []) :
    batchDelete lookup call keys
    = some (mergeStatuses (gs.map (fun g => call g.1 g.2))) := by
  unfold batchDelete
  rw [h]
  cases gs with
  | nil => exact absurd rfl hne
  | cons a l => rfl

theorem batchCompareAndSet_dispatch (lookup : Lookup)
    (call : Region → List (KVPair × Key) → Status × List KeyOpState)
    (kvs : List KVPair) (expected_values : List Key)
    (states0 : List KeyOpState) (gs : List (Region × List (KVPair × Key)))
    (hlen : kvs.length = expected_values.length)
    (h : groupByRegion lookup (fun p => p.1.key) (kvs.zip expected_values) []
          = .ok gs)
    (hne : gs ≠ []) :
    batchCompareAndSet lookup call kvs expected_values states0
    = some (mergeSubStates (gs.map (processSub call))) := by
  unfold batchCompareAndSet
  rw [if_neg (by simp [hlen]), h]
  cases gs with
  | nil => exact absurd rfl hne
  | cons a l => rfl

/-! ### Lemmas on the DeleteRange walker -/

theorem key_lt_ne_nil (a b : Key) (h : a < b) : b ≠ [] := by
  intro hb
  subst hb
  exact absurd (lt_of_le_of_lt List.nil_le h) (lt_irrefl _)

theorem fresh_id (lookup : Lookup)
    (hcont : ∀ k rr, lookup k = .ok rr → rr.start_key ≤ k ∧ k < rr.end_key)
    (hids : ∀ k1 k2 r1 r2, lookup k1 = .ok r1 → lookup k2 = .ok r2 →
        r1.id = r2.id → r1 = r2)
    (cur : Key) (r : Region) (hl : lookup cur = .ok r)
    (rest : List (Int × DeleteRangeContext))
    (hwit : ∀ p ∈ rest, ∃ k rr, r.end_key ≤ k ∧ lookup k = .ok rr
        ∧ rr.id = p.1) :
    r.id ∉ rest.map Prod.fst := by
  intro hmem
  rcases List.mem_map.mp hmem with ⟨p, hp, hid⟩
  rcases hwit p hp with ⟨k, rr, hk, hok, hid2⟩
  have hrr : rr = r := hids k cur rr r hok hl (by rw [hid2, hid])
  rcases hcont k rr hok with ⟨_, hklt⟩
  rw [hrr] at hklt
  exact absurd hk (not_le.mpr hklt)

theorem deleteRangeLoop_sound (lookup : Lookup) (e : Key) (we : Bool)
    (hcont : ∀ k rr, lookup k = .ok rr → rr.start_key ≤ k ∧ k < rr.end_key)
    (hids : ∀ k1 k2 r1 r2, lookup k1 = .ok r1 → lookup k2 = .ok r2 →
        r1.id = r2.id → r1 = r2) :
    ∀ (fuel : Nat) (next : Key) (l : List (Int × DeleteRangeContext))
      (dek : Bool), next ≠ [] →
      deleteRangeLoop lookup e we fuel next = some (.ok (l, dek)) →
      WalkRel lookup e we next true l dek
      ∧ (∀ p ∈ l, ∃ k rr, next ≤ k ∧ lookup k = .ok rr ∧ rr.id = p.1)
      ∧ (l.map Prod.fst).Nodup := by
  intro fuel
  induction fuel with
  | zero =>
      intro next l dek hne hrun
      rw [deleteRangeLoop, if_neg hne] at hrun
      exact absurd hrun (by simp)
  | succ fuel ih =>
      intro next l dek hne hrun
      rw [deleteRangeLoop, if_neg hne] at hrun
      cases hl : lookup next with
      | error st =>
          rw [hl] at hrun
          exact absurd hrun (by simp)
      | ok r =>
          rw [hl] at hrun
          dsimp only at hrun
          rcases hcont next r hl with ⟨_, hnlt⟩
          by_cases hlt : e < r.end_key
          · rw [if_pos hlt] at hrun
            simp only [Option.some.injEq, Except.ok.injEq, Prod.mk.injEq] at hrun
            obtain ⟨hll, hdd⟩ := hrun
            subst hll
            subst hdd
            refine ⟨WalkRel.last next true r hl hlt, ?_, by simp⟩
            intro p hp
            rw [List.mem_singleton] at hp
            subst hp
            exact ⟨next, r, le_refl next, hl, rfl⟩
          · rw [if_neg hlt] at hrun
            by_cases hgt : r.end_key < e
            · rw [if_pos hgt] at hrun
              cases hrec : deleteRangeLoop lookup e we fuel r.end_key with
              | none =>
                  rw [hrec] at hrun
                  exact absurd hrun (by simp)
              | some out =>
                  rw [hrec] at hrun
                  cases out with
                  | error st =>
                      dsimp only at hrun
                      exact absurd hrun (by simp)
                  | ok pair =>
                      obtain ⟨rest, dek0⟩ := pair
                      dsimp only at hrun
                      simp only [Option.some.injEq, Except.ok.injEq,
                        Prod.mk.injEq] at hrun
                      obtain ⟨hll, hdd⟩ := hrun
                      subst hll
                      subst hdd
                      have hne2 : r.end_key ≠ [] := key_lt_ne_nil next _ hnlt
                      obtain ⟨hw, hwit, hnd⟩ := ih r.end_key rest _ hne2 hrec
                      refine ⟨WalkRel.step next true r rest _ hl hgt hw,
                        ?_, ?_⟩
                      · intro p hp
                        rcases List.mem_cons.mp hp with hp | hp
                        · subst hp
                          exact ⟨next, r, le_refl next, hl, rfl⟩
                        · rcases hwit p hp with ⟨k, rr, hk, hok, hid⟩
                          exact ⟨k, rr, le_trans (le_of_lt hnlt) hk, hok, hid⟩
                      · rw [List.map_cons]
                        exact List.Nodup.cons
                          (fresh_id lookup hcont hids next r hl rest hwit) hnd
            · rw [if_neg hgt] at hrun
              have heq : e = r.end_key := le_antisymm (not_lt.mp hgt)
                (not_lt.mp hlt)
              simp only [Option.some.injEq, Except.ok.injEq,
                Prod.mk.injEq] at hrun
              obtain ⟨hll, hdd⟩ := hrun
              subst hll
              subst hdd
              refine ⟨WalkRel.boundary next true r hl heq, ?_, by simp⟩
              intro p hp
              rw [List.mem_singleton] at hp
              subst hp
              exact ⟨next, r, le_refl next, hl, rfl⟩

theorem deleteRangePartition_lt (lookup : Lookup) (s e : Key) (ws we : Bool)
    (fuel : Nat) (l : List (Int × DeleteRangeContext)) (dek : Bool)
    (hrun : deleteRangePartition lookup s e ws we fuel = some (.ok (l, dek))) :
    s < e := by
  by_cases h0 : e ≤ s
  · rw [deleteRangePartition, if_pos h0] at hrun
    exact absurd hrun (by simp)
  · exact not_le.mp h0

theorem deleteRangePartition_sound (lookup : Lookup) (s e : Key)
    (ws we : Bool) (fuel : Nat) (l : List (Int × DeleteRangeContext))
    (dek : Bool)
    (hcont : ∀ k rr, lookup k = .ok rr → rr.start_key ≤ k ∧ k < rr.end_key)
    (hids : ∀ k1 k2 r1 r2, lookup k1 = .ok r1 → lookup k2 = .ok r2 →
        r1.id = r2.id → r1 = r2)
    (hrun : deleteRangePartition lookup s e ws we fuel = some (.ok (l, dek))) :
    WalkRel lookup e we s ws l dek ∧ (l.map Prod.fst).Nodup := by
  have hlt0 : s < e := deleteRangePartition_lt lookup s e ws we fuel l dek hrun
  rw [deleteRangePartition, if_neg (not_le.mpr hlt0)] at hrun
  cases hl : lookup s with
  | error st =>
      rw [hl] at hrun
      exact absurd hrun (by simp)
  | ok r =>
      rw [hl] at hrun
      dsimp only at hrun
      rcases hcont s r hl with ⟨_, hslt⟩
      by_cases hlt : e < r.end_key
      · rw [if_pos hlt] at hrun
        simp only [Option.some.injEq, Except.ok.injEq, Prod.mk.injEq] at hrun
        obtain ⟨hll, hdd⟩ := hrun
        subst hll
        subst hdd
        exact ⟨WalkRel.last s ws r hl hlt, by simp⟩
      · rw [if_neg hlt] at hrun
        by_cases hgt : r.end_key < e
        · rw [if_pos hgt] at hrun
          cases hrec : deleteRangeLoop lookup e we fuel r.end_key with
          | none =>
              rw [hrec] at hrun
              exact absurd hrun (by simp)
          | some out =>
              rw [hrec] at hrun
              cases out with
              | error st =>
                  dsimp only at hrun
                  exact absurd hrun (by simp)
              | ok pair =>
                  obtain ⟨rest, dek0⟩ := pair
                  dsimp only at hrun
                  simp only [Option.some.injEq, Except.ok.injEq,
                    Prod.mk.injEq] at hrun
                  obtain ⟨hll, hdd⟩ := hrun
                  subst hll
                  subst hdd
                  have hne2 : r.end_key ≠ [] := key_lt_ne_nil s _ hslt
                  obtain ⟨hw, hwit, hnd⟩ :=
                    deleteRangeLoop_sound lookup e we hcont hids fuel
                      r.end_key rest _ hne2 hrec
                  refine ⟨WalkRel.step s ws r rest _ hl hgt hw, ?_⟩
                  rw [List.map_cons]
                  exact List.Nodup.cons
                    (fresh_id lookup hcont hids s r hl rest hwit) hnd
        · rw [if_neg hgt] at hrun
          have heq : e = r.end_key := le_antisymm (not_lt.mp hgt)
            (not_lt.mp hlt)
          simp only [Option.some.injEq, Except.ok.injEq,
            Prod.mk.injEq] at hrun
          obtain ⟨hll, hdd⟩ := hrun
          subst hll
          subst hdd
          exact ⟨WalkRel.boundary s ws r hl heq, by simp⟩

theorem cond_start_of_lt (ws : Bool) (cur k : Key) (h : cur < k) :
    (if ws then cur ≤ k else cur < k) := by
  cases ws
  · simpa using h
  · simpa using le_of_lt h

theorem cond_end_of_lt (we : Bool) (k e : Key) (h : k < e) :
    (if we then k ≤ e else k < e) := by
  cases we
  · simpa using h
  · simpa using le_of_lt h

theorem walk_coverage (lookup : Lookup) (e : Key) (we : Bool)
    (hcont : ∀ k rr, lookup k = .ok rr → rr.start_key ≤ k ∧ k < rr.end_key) :
    ∀ (cur : Key) (ws : Bool) (l : List (Int × DeleteRangeContext))
      (dek : Bool), WalkRel lookup e we cur ws l dek → cur < e →
      ∀ k : Key,
        ((∃ p ∈ l, ctxCovers p.2 k) ∨ (dek = true ∧ k = e))
        ↔ ((if ws then cur ≤ k else cur < k)
            ∧ (if we then k ≤ e else k < e)) := by
  intro cur ws l dek hw
  induction hw with
  | last cur ws r hl hlt =>
      intro _ k
      simp [ctxCovers]
  | boundary cur ws r hl heq =>
      intro hcur k
      cases we with
      | false => simp [ctxCovers]
      | true =>
          simp only [ctxCovers, List.mem_singleton, if_true]
          constructor
          · intro hc
            rcases hc with ⟨p, hp, hcov⟩ | ⟨_, hk⟩
            · subst hp
              exact ⟨hcov.1, le_of_lt (by simpa using hcov.2)⟩
            · subst hk
              exact ⟨cond_start_of_lt ws cur k hcur, le_refl k⟩
          · intro ⟨h1, h2⟩
            rcases lt_or_eq_of_le h2 with h2 | h2
            · exact Or.inl ⟨_, rfl, h1, by simpa using h2⟩
            · exact Or.inr ⟨by simp, h2⟩
  | step cur ws r rest dek hl hgt hrest ih =>
      intro hcur k
      have hih := ih hgt k
      rcases hcont cur r hl with ⟨_, hclt⟩
      constructor
      · intro hc
        rcases hc with ⟨p, hp, hcov⟩ | ⟨hdek, hk⟩
        · rcases List.mem_cons.mp hp with hp | hp
          · subst hp
            simp only [ctxCovers] at hcov
            have hke : k < e := lt_trans (by simpa using hcov.2) hgt
            exact ⟨hcov.1, cond_end_of_lt we k e hke⟩
          · have h2 := hih.mp (Or.inl ⟨p, hp, hcov⟩)
            refine ⟨cond_start_of_lt ws cur k
              (lt_of_lt_of_le hclt (by simpa using h2.1)), h2.2⟩
        · have h2 := hih.mp (Or.inr ⟨hdek, hk⟩)
          refine ⟨cond_start_of_lt ws cur k
            (lt_of_lt_of_le hclt (by simpa using h2.1)), h2.2⟩
      · intro ⟨h1, h2⟩
        rcases lt_or_ge k r.end_key with hk | hk
        · exact Or.inl ⟨_, List.mem_cons_self _ _,
            by simpa [ctxCovers] using ⟨h1, hk⟩⟩
        · rcases hih.mpr ⟨by simpa using hk, h2⟩ with hc | hc
          · rcases hc with ⟨p, hp, hcov⟩
            exact Or.inl ⟨p, List.mem_cons_of_mem _ hp, hcov⟩
          · exact Or.inr hc

theorem walk_in_region (lookup : Lookup) (e : Key) (we : Bool)
    (hcont : ∀ k rr, lookup k = .ok rr → rr.start_key ≤ k ∧ k < rr.end_key) :
    ∀ (cur : Key) (ws : Bool) (l : List (Int × DeleteRangeContext))
      (dek : Bool), WalkRel lookup e we cur ws l dek →
      ∀ p ∈ l, ∃ rr, lookup p.2.start = .ok rr ∧ p.1 = rr.id
        ∧ rr.start_key ≤ p.2.start ∧ p.2.end_ ≤ rr.end_key := by
  intro cur ws l dek hw
  induction hw with
  | last cur ws r hl hlt =>
      intro p hp
      rw [List.mem_singleton] at hp
      subst hp
      exact ⟨r, hl, rfl, (hcont cur r hl).1, le_of_lt hlt⟩
  | boundary cur ws r hl heq =>
      intro p hp
      rw [List.mem_singleton] at hp
      subst hp
      exact ⟨r, hl, rfl, (hcont cur r hl).1, le_of_eq heq⟩
  | step cur ws r rest dek hl hgt hrest ih =>
      intro p hp
      rcases List.mem_cons.mp hp with hp | hp
      · subst hp
        exact ⟨r, hl, rfl, (hcont cur r hl).1, le_refl _⟩
      · exact ih p hp

theorem walk_dek (lookup : Lookup) (e : Key) (we : Bool) :
    ∀ (cur : Key) (ws : Bool) (l : List (Int × DeleteRangeContext))
      (dek : Bool), WalkRel lookup e we cur ws l dek → dek = true →
      we = true ∧ ∃ k rr, lookup k = .ok rr ∧ e = rr.end_key := by
  intro cur ws l dek hw
  induction hw with
  | last cur ws r hl hlt => intro h; exact absurd h (by simp)
  | boundary cur ws r hl heq => intro h; exact ⟨h, cur, r, hl, heq⟩
  | step cur ws r rest dek hl hgt hrest ih => exact ih

theorem deleteRangeReduce_foldl (subs : List (Status × Int)) (res : Status)
    (c : Int) :
    subs.foldl
      (fun acc sub =>
        if !sub.1.IsOK then (if acc.1.IsOK then sub.1 else acc.1, acc.2)
        else (acc.1, acc.2 + sub.2))
      (res, c)
    = ((if res.IsOK then firstNonOk (subs.map Prod.fst) else res),
       c + ((subs.filter (fun sub => sub.1.IsOK)).map Prod.snd).sum) := by
  induction subs generalizing res c with
  | nil =>
      cases hres : res.IsOK
      · simp [hres]
      · simp [hres, (Status.IsOK_iff res).mp hres, firstNonOk_nil]
  | cons sub rest ih =>
      cases hs : sub.1.IsOK
      · cases hres : res.IsOK
        · simp only [List.foldl_cons, hs, hres, Bool.not_false, if_true,
            if_false]
          rw [ih]
          simp [hres, hs, List.filter_cons]
        · simp only [List.foldl_cons, hs, hres, Bool.not_false, if_true]
          rw [ih]
          simp [hres, hs, firstNonOk_cons, List.filter_cons,
            (Status.not_IsOK_iff sub.1).mp hs]
      · simp only [List.foldl_cons, hs, Bool.not_true, if_false]
        rw [ih]
        simp [hs, firstNonOk_cons, List.filter_cons, add_assoc]

theorem deleteRangeReduce_eq (delPart : Option Status)
    (subs : List (Status × Int)) :
    deleteRangeReduce delPart subs
    = (firstNonOk ((match delPart with | none => [] | some st => [st])
          ++ subs.map Prod.fst),
       (match delPart with
        | none => (0 : Int)
        | some st => if st.IsOK then 1 else 0)
         + ((subs.filter (fun sub => sub.1.IsOK)).map Prod.snd).sum) := by
  cases delPart with
  | none =>
      unfold deleteRangeReduce
      rw [deleteRangeReduce_foldl]
      simp [Status.IsOK]
  | some st =>
      unfold deleteRangeReduce
      dsimp only
      cases hs : st.IsOK
      · rw [if_neg (by simp [hs]), deleteRangeReduce_foldl]
        simp [hs, firstNonOk_cons]
      · rw [if_pos (by simp [hs]), deleteRangeReduce_foldl]
        simp [hs, firstNonOk_cons, show Status.Ok.IsOK = true from rfl]

theorem deleteRangeLoop_error (lookup : Lookup) (e : Key) (we : Bool) :
    ∀ (fuel : Nat) (next : Key) (st : Status),
      deleteRangeLoop lookup e we fuel next = some (.error st) →
      ∃ k, lookup k = .error st := by
  intro fuel
  induction fuel with
  | zero =>
      intro next st h
      rw [deleteRangeLoop] at h
      by_cases hne : next = []
      · rw [if_pos hne] at h
        exact absurd h (by simp)
      · rw [if_neg hne] at h
        exact absurd h (by simp)
  | succ fuel ih =>
      intro next st h
      rw [deleteRangeLoop] at h
      by_cases hne : next = []
      · rw [if_pos hne] at h
        exact absurd h (by simp)
      · rw [if_neg hne] at h
        cases hl : lookup next with
        | error st0 =>
            rw [hl] at h
            dsimp only at h
            simp only [Option.some.injEq, Except.error.injEq] at h
            exact ⟨next, by rw [hl, h]⟩
        | ok r =>
            rw [hl] at h
            dsimp only at h
            by_cases hlt : e < r.end_key
            · rw [if_pos hlt] at h
              exact absurd h (by simp)
            · rw [if_neg hlt] at h
              by_cases hgt : r.end_key < e
              · rw [if_pos hgt] at h
                cases hrec : deleteRangeLoop lookup e we fuel r.end_key with
                | none =>
                    rw [hrec] at h
                    exact absurd h (by simp)
                | some out =>
                    rw [hrec] at h
                    cases out with
                    | error st0 =>
                        dsimp only at h
                        simp only [Option.some.injEq,
                          Except.error.injEq] at h
                        subst h
                        exact ih r.end_key st0 hrec
                    | ok pair =>
                        obtain ⟨rest, dek0⟩ := pair
                        dsimp only at h
                        exact absurd h (by simp)
              · rw [if_neg hgt] at h
                exact absurd h (by simp)

theorem deleteRangePartition_error (lookup : Lookup) (s e : Key)
    (ws we : Bool) (fuel : Nat) (st : Status) (hse : s < e)
    (h : deleteRangePartition lookup s e ws we fuel = some (.error st)) :
    ∃ k, lookup k = .error st := by
  rw [deleteRangePartition, if_neg (not_le.mpr hse)] at h
  cases hl : lookup s with
  | error st0 =>
      rw [hl] at h
      dsimp only at h
      simp only [Option.some.injEq, Except.error.injEq] at h
      exact ⟨s, by rw [hl, h]⟩
  | ok r =>
      rw [hl] at h
      dsimp only at h
      by_cases hlt : e < r.end_key
      · rw [if_pos hlt] at h
        exact absurd h (by simp)
      · rw [if_neg hlt] at h
        by_cases hgt : r.end_key < e
        · rw [if_pos hgt] at h
          cases hrec : deleteRangeLoop lookup e we fuel r.end_key with
          | none =>
              rw [hrec] at h
              exact absurd h (by simp)
          | some out =>
              rw [hrec] at h
              cases out with
              | error st0 =>
                  dsimp only at h
                  simp only [Option.some.injEq, Except.error.injEq] at h
                  subst h
                  exact deleteRangeLoop_error lookup e we fuel r.end_key
                    st0 hrec
              | ok pair =>
                  obtain ⟨rest, dek0⟩ := pair
                  dsimp only at h
                  exact absurd h (by simp)
        · rw [if_neg hgt] at h
          exact absurd h (by simp)

theorem firstLookupError_some {α : Type} (lookup : Lookup) (keyOf : α → Key) :
    ∀ (xs : List α) (st : Status),
      firstLookupError lookup keyOf xs = some st →
      ∃ x ∈ xs, lookup (keyOf x) = .error st := by
  intro xs
  induction xs with
  | nil => intro st h; exact absurd h (by simp [firstLookupError])
  | cons x rest ih =>
      intro st h
      rw [firstLookupError] at h
      cases hl : lookup (keyOf x) with
      | error st0 =>
          rw [hl] at h
          dsimp only at h
          simp only [Option.some.injEq] at h
          subst h
          exact ⟨x, List.mem_cons_self _ _, hl⟩
      | ok r =>
          rw [hl] at h
          dsimp only at h
          rcases ih st h with ⟨y, hy, hok⟩
          exact ⟨y, List.mem_cons_of_mem _ hy, hok⟩

theorem firstNonOk_subs {β : Type} (subs : List (Status × List β))
    (sub0 : Status × List β)
    (h : subs.find? (fun sub => !sub.1.IsOK) = some sub0) :
    firstNonOk (subs.map Prod.fst) = sub0.1 := by
  refine firstNonOk_find? _ _ ?_
  rw [List.find?_map]
  rw [show (List.find? ((fun st => !st.IsOK) ∘ Prod.fst) subs) = some sub0
    from h]
  rfl

theorem firstNonOk_map_ok_iff {β : Type} (subs : List (Status × List β)) :
    firstNonOk (subs.map Prod.fst) = Status.Ok
    ↔ ∀ sub ∈ subs, sub.1 = Status.Ok := by
  rw [firstNonOk_eq_ok_iff]
  constructor
  · intro h sub hsub
    exact h sub.1 (List.mem_map_of_mem Prod.fst hsub)
  · intro h st hst
    rcases List.mem_map.mp hst with ⟨sub, hsub, hfst⟩
    rw [← hfst]
    exact h sub hsub

/-! ### Properties of the concrete test topology -/

theorem testLookup_cont : ∀ (k : Key) (rr : Region),
    testLookup k = .ok rr → rr.start_key ≤ k ∧ k < rr.end_key := by
  intro k rr h
  unfold testLookup at h
  split_ifs at h with h1 h2 h3
  · obtain rfl := Except.ok.inj h
    exact h1
  · obtain rfl := Except.ok.inj h
    exact h2
  · obtain rfl := Except.ok.inj h
    exact h3

theorem testLookup_ids : ∀ (k1 k2 : Key) (r1 r2 : Region),
    testLookup k1 = .ok r1 → testLookup k2 = .ok r2 →
    r1.id = r2.id → r1 = r2 := by
  intro k1 k2 r1 r2 h1 h2 hid
  unfold testLookup at h1 h2
  split_ifs at h1 with a1 a2 a3 <;> split_ifs at h2 with b1 b2 b3 <;>
    try exact Except.noConfusion h1
  all_goals obtain rfl := Except.ok.inj h1
  all_goals obtain rfl := Except.ok.inj h2
  all_goals first | rfl | exact absurd hid (by decide)

theorem testLookup_err : ∀ (k : Key) (st : Status),
    testLookup k = .error st → st = Status.RegionNotFound := by
  intro k st h
  unfold testLookup at h
  split_ifs at h
  all_goals simp_all

theorem callDRTest_not_illegal : ∀ (i : Int) (c : DeleteRangeContext),
    ((callDRTest i c).1).isIllegalState = false := by
  intro i c
  unfold callDRTest
  split_ifs <;> rfl

theorem callDelTest_not_illegal : ∀ k : Key,
    (callDelTest k).isIllegalState = false := by
  intro k
  rfl

theorem testLookup_not_illegal : ∀ (k : Key) (st : Status),
    testLookup k = .error st → st.isIllegalState = false := by
  intro k st h
  rw [testLookup_err k st h]
  rfl

theorem testLookup_not_invalidarg : ∀ (k : Key) (st : Status),
    testLookup k = .error st → st.isInvalidArgument = false := by
  intro k st h
  rw [testLookup_err k st h]
  rfl

theorem callCASTest_not_invalidarg : ∀ (r : Region)
    (ps : List (KVPair × Key)),
    ((callCASTest r ps).1).isInvalidArgument = false := by
  intro r ps
  rfl

/-! ### Claim theorems -/

/-- C1: for every `DeleteRange` run that passes the precondition check and
whose walk completes (`deleteRangePartition` returns sub-requests), over a
well-formed meta cache (each successful lookup contains its key, and
region ids determine regions) the emitted sub-requests follow exactly the
spec's three-way case analysis — transcribed as the relation `WalkRel`,
whose later iterations start at the previous region's end key with
`with_start = true` — and no region id is ever visited twice. -/
theorem deleteRange_walker_three_way_spec (lookup : Lookup) (s e : Key)
    (ws we : Bool) (fuel : Nat) (l : List (Int × DeleteRangeContext))
    (dek : Bool)
    (hcont : ∀ k rr, lookup k = .ok rr → rr.start_key ≤ k ∧ k < rr.end_key)
    (hids : ∀ k1 k2 r1 r2, lookup k1 = .ok r1 → lookup k2 = .ok r2 →
        r1.id = r2.id → r1 = r2)
    (hrun : deleteRangePartition lookup s e ws we fuel = some (.ok (l, dek))) :
    WalkRel lookup e we s ws l dek ∧ (l.map Prod.fst).Nodup :=
  deleteRangePartition_sound lookup s e ws we fuel l dek hcont hids hrun

/-- Witness for C1: on the three-region test topology,
`DeleteRange([12], [30], with_start, with_end)` emits `[12],[20)` to region
1 and `[20],[30)` to region 2 with the point delete scheduled, satisfying
the walker specification with distinct region ids. -/
theorem deleteRange_walker_three_way_spec_witness :
    WalkRel testLookup [30] true [12] true
      [(1, ⟨[12], true, [20], false⟩), (2, ⟨[20], true, [30], false⟩)] true
    ∧ (([(1, ⟨[12], true, [20], false⟩),
        (2, ⟨[20], true, [30], false⟩)] : List (Int × DeleteRangeContext)).map
          Prod.fst).Nodup :=
  deleteRange_walker_three_way_spec testLookup [12] [30] true true 5 _ _
    testLookup_cont testLookup_ids rfl

/-- C2: for every completed `DeleteRange` walk over a well-formed meta
cache, (i) the keys covered by the emitted sub-ranges, plus the point
delete of `end` when scheduled, are exactly the user's interval from
`start` to `end` with the requested inclusivity at both ends; (ii) every
emitted sub-range lies inside the range of the region it is sent to; and
(iii) the point delete is scheduled (the single flag `delete_end_key`)
only when `with_end` is true and `end` coincides with a region end
boundary. -/
theorem deleteRange_coverage_invariants (lookup : Lookup) (s e : Key)
    (ws we : Bool) (fuel : Nat) (l : List (Int × DeleteRangeContext))
    (dek : Bool)
    (hcont : ∀ k rr, lookup k = .ok rr → rr.start_key ≤ k ∧ k < rr.end_key)
    (hids : ∀ k1 k2 r1 r2, lookup k1 = .ok r1 → lookup k2 = .ok r2 →
        r1.id = r2.id → r1 = r2)
    (hrun : deleteRangePartition lookup s e ws we fuel = some (.ok (l, dek))) :
    (∀ k : Key,
      ((∃ p ∈ l, ctxCovers p.2 k) ∨ (dek = true ∧ k = e))
      ↔ ((if ws then s ≤ k else s < k) ∧ (if we then k ≤ e else k < e)))
    ∧ (∀ p ∈ l, ∃ rr, lookup p.2.start = .ok rr ∧ p.1 = rr.id
        ∧ rr.start_key ≤ p.2.start ∧ p.2.end_ ≤ rr.end_key)
    ∧ (dek = true → we = true
        ∧ ∃ k rr, lookup k = .ok rr ∧ e = rr.end_key) := by
  have hlt := deleteRangePartition_lt lookup s e ws we fuel l dek hrun
  obtain ⟨hw, _⟩ :=
    deleteRangePartition_sound lookup s e ws we fuel l dek hcont hids hrun
  exact ⟨walk_coverage lookup e we hcont s ws l dek hw hlt,
    walk_in_region lookup e we hcont s ws l dek hw,
    walk_dek lookup e we s ws l dek hw⟩

/-- Witness for C2: the coverage, in-region and point-delete invariants
instantiated on the three-region test topology for
`DeleteRange([12], [30], true, true)`. -/
theorem deleteRange_coverage_invariants_witness :
    (∀ k : Key,
      ((∃ p ∈ ([(1, ⟨[12], true, [20], false⟩),
          (2, ⟨[20], true, [30], false⟩)] : List (Int × DeleteRangeContext)),
          ctxCovers p.2 k) ∨ (true = true ∧ k = [30]))
      ↔ ((if true then [12] ≤ k else [12] < k)
          ∧ (if true then k ≤ [30] else k < [30])))
    ∧ (∀ p ∈ ([(1, ⟨[12], true, [20], false⟩),
          (2, ⟨[20], true, [30], false⟩)] : List (Int × DeleteRangeContext)),
        ∃ rr, testLookup p.2.start = .ok rr ∧ p.1 = rr.id
          ∧ rr.start_key ≤ p.2.start ∧ p.2.end_ ≤ rr.end_key)
    ∧ (true = true → true = true
        ∧ ∃ k rr, testLookup k = .ok rr ∧ [30] = rr.end_key) :=
  deleteRange_coverage_invariants testLookup [12] [30] true true 5 _ _
    testLookup_cont testLookup_ids rfl

/-- C5: whenever the `DeleteRange` walk completes and the sub-requests are
dispatched, the returned `delete_count` is the sum of `delete_count` over
the sub-batches whose status is Ok, plus one exactly when the compensating
point delete was scheduled and succeeded; the aggregated status is the
first non-Ok outcome in the order the code records failures (the point
delete first, then the sub-batches in order), and the partial count is
reported through the output parameter even when that status is an error. -/
theorem deleteRange_count_aggregation (lookup : Lookup)
    (callDR : Int → DeleteRangeContext → Status × Int)
    (callDel : Key → Status) (s e : Key) (ws we : Bool) (cnt0 : Int)
    (fuel : Nat) (l : List (Int × DeleteRangeContext)) (dek : Bool)
    (hrun : deleteRangePartition lookup s e ws we fuel = some (.ok (l, dek))) :
    deleteRangeOp lookup callDR callDel s e ws we cnt0 fuel
    = some
        (firstNonOk ((if dek then [callDel e] else [])
            ++ (l.map (fun p => callDR p.1 p.2)).map Prod.fst),
         (if dek ∧ (callDel e).IsOK then 1 else 0)
           + (((l.map (fun p => callDR p.1 p.2)).filter
                (fun sub => sub.1.IsOK)).map Prod.snd).sum) := by
  unfold deleteRangeOp
  rw [hrun]
  dsimp only
  rw [deleteRangeReduce_eq]
  cases dek with
  | false => simp
  | true =>
      cases hdel : (callDel e).IsOK with
      | false => simp [hdel]
      | true => simp [hdel]

/-- Witness for C5: on the test topology, region 1 deletes 3 keys, region
2 fails with Timeout (its reported count is discarded), the point delete
succeeds, so `DeleteRange([12], [30], true, true)` reports Timeout with a
partial count of 4. -/
theorem deleteRange_count_aggregation_witness :
    deleteRangeOp testLookup callDRTest callDelTest [12] [30] true true 0 5
    = some (Status.Timeout, 4) :=
  (deleteRange_count_aggregation testLookup callDRTest callDelTest
    [12] [30] true true 0 5 _ _ rfl).trans (by decide)

/-- C3: for every batch operation, once the sub-batches are dispatched the
returned status is Ok exactly when every sub-batch status is Ok; otherwise
it is the first non-Ok status in iteration order over the sub-batch
vector; and every Ok sub-batch still contributes its payloads to the
output (for `BatchGet` the returned kv list is the concatenation of the
payloads of the Ok sub-batches even when the returned status is an
error).  Stated for all five operations: `BatchGet`, `BatchPutIfAbsent`,
`BatchCompareAndSet` (payload-returning), `BatchPut` and `BatchDelete`
(status-only). -/
theorem batch_first_error_aggregation :
    (∀ (lookup : Lookup) (call : Region → List Key → Status × List KVPair)
        (keys : List Key) (kvs0 : List KVPair)
        (gs : List (Region × List Key)),
      groupByRegion lookup (fun k => k) keys [] = .ok gs → gs ≠ [] →
      batchGet lookup call keys kvs0
        = some (firstNonOk ((gs.map (processSub call)).map Prod.fst),
            ((gs.map (processSub call)).filter
                (fun sub => sub.1.IsOK)).flatMap (fun sub => sub.2))
        ∧ (firstNonOk ((gs.map (processSub call)).map Prod.fst) = Status.Ok
            ↔ ∀ sub ∈ gs.map (processSub call), sub.1 = Status.Ok)
        ∧ (∀ sub0, (gs.map (processSub call)).find?
              (fun sub => !sub.1.IsOK) = some sub0 →
            firstNonOk ((gs.map (processSub call)).map Prod.fst) = sub0.1))
    ∧ (∀ (lookup : Lookup)
        (call : Region → List KVPair → Status × List KeyOpState)
        (kvs : List KVPair) (states0 : List KeyOpState)
        (gs : List (Region × List KVPair)),
      groupByRegion lookup (fun kv => kv.key) kvs [] = .ok gs → gs ≠ [] →
      batchPutIfAbsent lookup call kvs states0
        = some (firstNonOk ((gs.map (processSub call)).map Prod.fst),
            ((gs.map (processSub call)).filter
                (fun sub => sub.1.IsOK)).flatMap (fun sub => sub.2))
        ∧ (firstNonOk ((gs.map (processSub call)).map Prod.fst) = Status.Ok
            ↔ ∀ sub ∈ gs.map (processSub call), sub.1 = Status.Ok)
        ∧ (∀ sub0, (gs.map (processSub call)).find?
              (fun sub => !sub.1.IsOK) = some sub0 →
            firstNonOk ((gs.map (processSub call)).map Prod.fst) = sub0.1))
    ∧ (∀ (lookup : Lookup)
        (call : Region → List (KVPair × Key) → Status × List KeyOpState)
        (kvs : List KVPair) (expected_values : List Key)
        (states0 : List KeyOpState)
        (gs : List (Region × List (KVPair × Key))),
      kvs.length = expected_values.length →
      groupByRegion lookup (fun p => p.1.key) (kvs.zip expected_values) []
          = .ok gs → gs ≠ [] →
      batchCompareAndSet lookup call kvs expected_values states0
        = some (firstNonOk ((gs.map (processSub call)).map Prod.fst),
            ((gs.map (processSub call)).filter
                (fun sub => sub.1.IsOK)).flatMap (fun sub => sub.2))
        ∧ (firstNonOk ((gs.map (processSub call)).map Prod.fst) = Status.Ok
            ↔ ∀ sub ∈ gs.map (processSub call), sub.1 = Status.Ok)
        ∧ (∀ sub0, (gs.map (processSub call)).find?
              (fun sub => !sub.1.IsOK) = some sub0 →
            firstNonOk ((gs.map (processSub call)).map Prod.fst) = sub0.1))
    ∧ (∀ (lookup : Lookup) (call : Region → List KVPair → Status)
        (kvs : List KVPair) (gs : List (Region × List KVPair)),
      groupByRegion lookup (fun kv => kv.key) kvs [] = .ok gs → gs ≠ [] →
      batchPut lookup call kvs
        = some (firstNonOk (gs.map (fun g => call g.1 g.2)))
        ∧ (firstNonOk (gs.map (fun g => call g.1 g.2)) = Status.Ok
            ↔ ∀ st ∈ gs.map (fun g => call g.1 g.2), st = Status.Ok)
        ∧ (∀ st0, (gs.map (fun g => call g.1 g.2)).find?
              (fun st => !st.IsOK) = some st0 →
            firstNonOk (gs.map (fun g => call g.1 g.2)) = st0))
    ∧ (∀ (lookup : Lookup) (call : Region → List Key → Status)
        (keys : List Key) (gs : List (Region × List Key)),
      groupByRegion lookup (fun k => k) keys [] = .ok gs → gs ≠ [] →
      batchDelete lookup call keys
        = some (firstNonOk (gs.map (fun g => call g.1 g.2)))
        ∧ (firstNonOk (gs.map (fun g => call g.1 g.2)) = Status.Ok
            ↔ ∀ st ∈ gs.map (fun g => call g.1 g.2), st = Status.Ok)
        ∧ (∀ st0, (gs.map (fun g => call g.1 g.2)).find?
              (fun st => !st.IsOK) = some st0 →
            firstNonOk (gs.map (fun g => call g.1 g.2)) = st0)) := by
  refine ⟨?_, ?_, ?_, ?_, ?_⟩
  · intro lookup call keys kvs0 gs hgs hne
    refine ⟨?_, firstNonOk_map_ok_iff _,
      fun sub0 h => firstNonOk_subs _ _ h⟩
    rw [batchGet_dispatch lookup call keys kvs0 gs hgs hne,
      mergeSubStates_eq]
  · intro lookup call kvs states0 gs hgs hne
    refine ⟨?_, firstNonOk_map_ok_iff _,
      fun sub0 h => firstNonOk_subs _ _ h⟩
    rw [batchPutIfAbsent_dispatch lookup call kvs states0 gs hgs hne,
      mergeSubStates_eq]
  · intro lookup call kvs expected_values states0 gs hlen hgs hne
    refine ⟨?_, firstNonOk_map_ok_iff _,
      fun sub0 h => firstNonOk_subs _ _ h⟩
    rw [batchCompareAndSet_dispatch lookup call kvs expected_values states0
      gs hlen hgs hne, mergeSubStates_eq]
  · intro lookup call kvs gs hgs hne
    refine ⟨?_, firstNonOk_eq_ok_iff _, fun st0 h => firstNonOk_find? _ _ h⟩
    rw [batchPut_dispatch lookup call kvs gs hgs hne, mergeStatuses_eq]
  · intro lookup call keys gs hgs hne
    refine ⟨?_, firstNonOk_eq_ok_iff _, fun st0 h => firstNonOk_find? _ _ h⟩
    rw [batchDelete_dispatch lookup call keys gs hgs hne, mergeStatuses_eq]

/-- Witness for C3: `BatchGet([[12],[22]])` on the test topology, where
region 2 times out, returns the Timeout as the first error while the
key-value pair of the successful region 1 sub-batch is still in the
output. -/
theorem batch_first_error_aggregation_witness :
    batchGet testLookup callGetTest [[12], [22]] []
      = some (Status.Timeout, [⟨[12], [1]⟩]) := by
  have h := batch_first_error_aggregation.1 testLookup callGetTest
    [[12], [22]] [] [(regA, [[12]]), (regB, [[22]])] rfl (by simp)
  exact h.1.trans (by decide)

/-- C4: for every batch operation whose region lookups all succeed, the
partition phase groups the inputs exactly by `LookupRegionByKey`: the
groups' payloads are a permutation of the inputs (each input occurrence
lands in exactly one group), every element sits in the group whose region
id is the id returned by looking up the element's key, one group exists
per distinct region id of the inputs, and group region ids are pairwise
distinct.  Stated generically over the input element type and key
extractor, which covers all five batch operations. -/
theorem batch_partition_matches_lookup {α : Type} (lookup : Lookup)
    (keyOf : α → Key) (inputs : List α) (gs : List (Region × List α))
    (hrun : groupByRegion lookup keyOf inputs [] = .ok gs) :
    ((gs.flatMap (fun g => g.2)).Perm inputs)
    ∧ (∀ g ∈ gs, ∀ x ∈ g.2, ∃ rr, lookup (keyOf x) = .ok rr ∧ rr.id = g.1.id)
    ∧ ((gs.map (fun g => g.1.id)).Nodup)
    ∧ (∀ i : Int, (∃ g ∈ gs, g.1.id = i)
        ↔ ∃ x ∈ inputs, ∃ rr, lookup (keyOf x) = .ok rr ∧ rr.id = i) := by
  obtain ⟨hperm, hmem, hnodup, hids⟩ :=
    groupByRegion_ok lookup keyOf inputs [] gs hrun
  refine ⟨by simpa using hperm, hmem (by simp), hnodup (by simp), ?_⟩
  intro i
  rw [hids i]
  simp

/-- Witness for C4: the keys `[12], [22], [13]` partition into the region
1 group `[12], [13]` and the region 2 group `[22]`. -/
theorem batch_partition_matches_lookup_witness :
    ((([(regA, [[12], [13]]), (regB, [[22]])] :
        List (Region × List Key)).flatMap (fun g => g.2)).Perm
      [[12], [22], [13]])
    ∧ (∀ g ∈ ([(regA, [[12], [13]]), (regB, [[22]])] :
        List (Region × List Key)), ∀ x ∈ g.2,
        ∃ rr, testLookup x = .ok rr ∧ rr.id = g.1.id)
    ∧ ((([(regA, [[12], [13]]), (regB, [[22]])] :
        List (Region × List Key)).map (fun g => g.1.id)).Nodup)
    ∧ (∀ i : Int,
        (∃ g ∈ ([(regA, [[12], [13]]), (regB, [[22]])] :
          List (Region × List Key)), g.1.id = i)
        ↔ ∃ x ∈ ([[12], [22], [13]] : List Key),
            ∃ rr, testLookup x = .ok rr ∧ rr.id = i) :=
  batch_partition_matches_lookup testLookup (fun k => k) [[12], [22], [13]]
    _ rfl

theorem mergeSub_fst_cases {α β : Type}
    (call : Region → List α → Status × List β)
    (gs : List (Region × List α)) :
    (mergeSubStates (gs.map (processSub call))).1 = Status.Ok
    ∨ ∃ g ∈ gs,
        (mergeSubStates (gs.map (processSub call))).1 = (call g.1 g.2).1 := by
  rw [mergeSubStates_eq]
  rcases firstNonOk_cases ((gs.map (processSub call)).map Prod.fst)
    with h | h
  · exact Or.inl h
  · rcases List.mem_map.mp h with ⟨sub, hsub, hfst⟩
    rcases List.mem_map.mp hsub with ⟨g, hg, hps⟩
    refine Or.inr ⟨g, hg, ?_⟩
    rw [← hfst, ← hps]
    rfl

theorem deleteRangeReduce_fst_cases (delPart : Option Status)
    (subs : List (Status × Int)) :
    (deleteRangeReduce delPart subs).1 = Status.Ok
    ∨ (∃ st, delPart = some st ∧ (deleteRangeReduce delPart subs).1 = st)
    ∨ ∃ sub ∈ subs, (deleteRangeReduce delPart subs).1 = sub.1 := by
  rw [deleteRangeReduce_eq]
  rcases firstNonOk_cases
      ((match delPart with | none => [] | some st => [st])
        ++ subs.map Prod.fst) with h | h
  · exact Or.inl h
  · rcases List.mem_append.mp h with h | h
    · cases delPart with
      | none => exact absurd h (by simp)
      | some st =>
          rw [List.mem_singleton] at h
          exact Or.inr (Or.inl ⟨st, rfl, h⟩)
    · rcases List.mem_map.mp h with ⟨sub, hsub, hfst⟩
      exact Or.inr (Or.inr ⟨sub, hsub, hfst.symm⟩)

/-- C6: `BatchCompareAndSet` performs its size check first: on a size
mismatch it returns `InvalidArgument` with the output states untouched,
without consulting the lookup or call oracles (the result is the same for
every oracle); and when the sizes match — provided neither the lookup nor
the per-region calls themselves produce an `InvalidArgument` status — the
returned status is never `InvalidArgument`. -/
theorem batchCompareAndSet_size_check (kvs : List KVPair)
    (expected_values : List Key) (states0 : List KeyOpState) :
    (kvs.length ≠ expected_values.length →
      ∀ (lookup : Lookup)
        (call : Region → List (KVPair × Key) → Status × List KeyOpState),
        batchCompareAndSet lookup call kvs expected_values states0
          = some (Status.InvalidArgument casSizeMsg, states0))
    ∧ (∀ (lookup : Lookup)
        (call : Region → List (KVPair × Key) → Status × List KeyOpState),
        kvs.length = expected_values.length →
        (∀ k st, lookup k = .error st → st.isInvalidArgument = false) →
        (∀ r ps, ((call r ps).1).isInvalidArgument = false) →
        ∀ res,
          batchCompareAndSet lookup call kvs expected_values states0
            = some res →
          res.1.isInvalidArgument = false) := by
  constructor
  · intro hne lookup call
    unfold batchCompareAndSet
    rw [if_pos hne]
  · intro lookup call hlen hlk hcall res hres
    unfold batchCompareAndSet at hres
    rw [if_neg (by simp [hlen])] at hres
    cases hg : groupByRegion lookup (fun p => p.1.key)
        (kvs.zip expected_values) [] with
    | error st =>
        rw [hg] at hres
        dsimp only at hres
        simp only [Option.some.injEq] at hres
        rw [← hres]
        rcases firstLookupError_some lookup (fun p => p.1.key)
          (kvs.zip expected_values) st
          ((groupByRegion_error lookup (fun p => p.1.key)
            (kvs.zip expected_values) [] st).mp hg) with ⟨x, _, herr⟩
        exact hlk _ st herr
    | ok gs =>
        rw [hg] at hres
        dsimp only at hres
        cases gs with
        | nil => exact absurd hres (by simp [dispatchAndMerge])
        | cons g0 rest =>
            rw [show dispatchAndMerge call (g0 :: rest)
                = some (mergeSubStates ((g0 :: rest).map (processSub call)))
              from rfl] at hres
            simp only [Option.some.injEq] at hres
            rw [← hres]
            rcases mergeSub_fst_cases call (g0 :: rest) with h | ⟨g, _, h⟩
            · rw [h]
              rfl
            · rw [h]
              exact hcall g.1 g.2

/-- Witness for C6: `BatchCompareAndSet` with one kv pair and no expected
values returns `InvalidArgument` and leaves the output states unchanged. -/
theorem batchCompareAndSet_size_check_witness :
    batchCompareAndSet testLookup callCASTest [⟨[12], [1]⟩] [] []
      = some (Status.InvalidArgument casSizeMsg, []) :=
  (batchCompareAndSet_size_check [⟨[12], [1]⟩] [] []).1 (by decide)
    testLookup callCASTest

/-- C7: for every batch operation, a failed region lookup during the
partition phase aborts the whole batch: the partition loop returns the
status of the first input whose lookup fails, the operation returns
exactly that status for every call oracle (so no sub-request is
constructed or dispatched), and the output container keeps its pre-call
value. -/
theorem batch_lookup_failure_aborts :
    (∀ (α : Type) (lookup : Lookup) (keyOf : α → Key) (xs : List α)
        (st : Status),
      groupByRegion lookup keyOf xs [] = .error st
      ↔ firstLookupError lookup keyOf xs = some st)
    ∧ (∀ (lookup : Lookup)
        (call : Region → List Key → Status × List KVPair)
        (keys : List Key) (kvs0 : List KVPair) (st : Status),
      groupByRegion lookup (fun k => k) keys [] = .error st →
      batchGet lookup call keys kvs0 = some (st, kvs0))
    ∧ (∀ (lookup : Lookup)
        (call : Region → List KVPair → Status × List KeyOpState)
        (kvs : List KVPair) (states0 : List KeyOpState) (st : Status),
      groupByRegion lookup (fun kv => kv.key) kvs [] = .error st →
      batchPutIfAbsent lookup call kvs states0 = some (st, states0))
    ∧ (∀ (lookup : Lookup)
        (call : Region → List (KVPair × Key) → Status × List KeyOpState)
        (kvs : List KVPair) (expected_values : List Key)
        (states0 : List KeyOpState) (st : Status),
      kvs.length = expected_values.length →
      groupByRegion lookup (fun p => p.1.key) (kvs.zip expected_values) []
          = .error st →
      batchCompareAndSet lookup call kvs expected_values states0
        = some (st, states0))
    ∧ (∀ (lookup : Lookup) (call : Region → List KVPair → Status)
        (kvs : List KVPair) (st : Status),
      groupByRegion lookup (fun kv => kv.key) kvs [] = .error st →
      batchPut lookup call kvs = some st)
    ∧ (∀ (lookup : Lookup) (call : Region → List Key → Status)
        (keys : List Key) (st : Status),
      groupByRegion lookup (fun k => k) keys [] = .error st →
      batchDelete lookup call keys = some st) := by
  refine ⟨?_, ?_, ?_, ?_, ?_, ?_⟩
  · intro α lookup keyOf xs st
    exact groupByRegion_error lookup keyOf xs [] st
  · intro lookup call keys kvs0 st h
    unfold batchGet
    rw [h]
  · intro lookup call kvs states0 st h
    unfold batchPutIfAbsent
    rw [h]
  · intro lookup call kvs expected_values states0 st hlen h
    unfold batchCompareAndSet
    rw [if_neg (by simp [hlen]), h]
  · intro lookup call kvs st h
    unfold batchPut
    rw [h]
  · intro lookup call keys st h
    unfold batchDelete
    rw [h]

/-- Witness for C7: `BatchGet([[12],[50]])` on the test topology, where
key `[50]` lies outside every region, returns `RegionNotFound` and leaves
the output kvs at their pre-call value, for any call oracle. -/
theorem batch_lookup_failure_aborts_witness :
    batchGet testLookup callGetTest [[12], [50]] [⟨[7], [7]⟩]
      = some (Status.RegionNotFound, [⟨[7], [7]⟩]) :=
  batch_lookup_failure_aborts.2.1 testLookup callGetTest [[12], [50]]
    [⟨[7], [7]⟩] Status.RegionNotFound rfl

/-- Counterexample for C8: the claim requires `DeleteRange` to reject an
empty `start` with `IllegalState` before any lookup, but the code only
checks `start >= end`.  With `start = []` (the empty key) and
`end = [10]`, the precondition check passes and the region lookup is
performed: a lookup oracle that fails with a sentinel `Internal` status
sees its status become the returned status, which is not `IllegalState`. -/
theorem deleteRange_empty_start_counterexample :
    deleteRangeOp (fun _ => .error (Status.Internal "lookup-performed"))
      (fun _ _ => (Status.Ok, 0)) (fun _ => Status.Ok)
      [] [10] true true 0 5
    = some (Status.Internal "lookup-performed", 0)
    ∧ (Status.Internal "lookup-performed").isIllegalState = false := by
  constructor
  · rfl
  · rfl

/-- C8 (amended): `DeleteRange` returns `IllegalState` from its
precondition check if and only if `start >= end` in byte order — which
rejects every call with an empty `end`, but accepts an empty `start` with
a non-empty `end`.  When `start >= end` the `IllegalState` is returned
without consulting any oracle (same result for every lookup and call
oracle) and with the output count untouched; when `start < end`, provided
neither the lookup nor the calls themselves produce `IllegalState`, the
returned status is never `IllegalState`. -/
theorem deleteRange_precondition_check (s e : Key) (ws we : Bool)
    (cnt0 : Int) (fuel : Nat) :
    (e ≤ s →
      ∀ (lookup : Lookup) (callDR : Int → DeleteRangeContext → Status × Int)
        (callDel : Key → Status),
        deleteRangeOp lookup callDR callDel s e ws we cnt0 fuel
          = some (Status.IllegalState drPrecondMsg, cnt0))
    ∧ (∀ (lookup : Lookup) (callDR : Int → DeleteRangeContext → Status × Int)
        (callDel : Key → Status),
        s < e →
        (∀ k st, lookup k = .error st → st.isIllegalState = false) →
        (∀ i c, ((callDR i c).1).isIllegalState = false) →
        (∀ k, (callDel k).isIllegalState = false) →
        ∀ res,
          deleteRangeOp lookup callDR callDel s e ws we cnt0 fuel
            = some res →
          res.1.isIllegalState = false) := by
  constructor
  · intro hle lookup callDR callDel
    unfold deleteRangeOp
    rw [deleteRangePartition, if_pos hle]
  · intro lookup callDR callDel hse hlk hDR hDel res hres
    unfold deleteRangeOp at hres
    cases hp : deleteRangePartition lookup s e ws we fuel with
    | none =>
        rw [hp] at hres
        exact absurd hres (by simp)
    | some out =>
        rw [hp] at hres
        cases out with
        | error st =>
            dsimp only at hres
            simp only [Option.some.injEq] at hres
            rw [← hres]
            rcases deleteRangePartition_error lookup s e ws we fuel st hse hp
              with ⟨k, herr⟩
            exact hlk k st herr
        | ok pair =>
            obtain ⟨l, dek⟩ := pair
            dsimp only at hres
            simp only [Option.some.injEq] at hres
            rw [← hres]
            rcases deleteRangeReduce_fst_cases
                (if dek then some (callDel e) else none)
                (l.map (fun p => callDR p.1 p.2)) with h | ⟨st, hdp, h⟩ | h
            · rw [h]
              rfl
            · rw [h]
              cases hd : dek with
              | false => rw [hd] at hdp; exact absurd hdp (by simp)
              | true =>
                  rw [hd] at hdp
                  simp only [if_true, Option.some.injEq] at hdp
                  rw [← hdp]
                  exact hDel e
            · rcases h with ⟨sub, hsub, h⟩
              rw [h]
              rcases List.mem_map.mp hsub with ⟨p, _, hps⟩
              rw [← hps]
              exact hDR p.1 p.2

/-- Witness for C8 (amended): `DeleteRange([12], [10], ...)` has
`start >= end` and returns `IllegalState` with the count output untouched;
and a well-formed run (`[12]` to `[30]`) never reports `IllegalState`. -/
theorem deleteRange_precondition_check_witness :
    deleteRangeOp testLookup callDRTest callDelTest [12] [10] true true 0 5
      = some (Status.IllegalState drPrecondMsg, 0)
    ∧ (Status.Timeout.isIllegalState = false) :=
  ⟨(deleteRange_precondition_check [12] [10] true true 0 5).1 (by decide)
      testLookup callDRTest callDelTest,
   (deleteRange_precondition_check [12] [30] true true 0 5).2 testLookup
      callDRTest callDelTest (by decide) testLookup_not_illegal
      callDRTest_not_illegal callDelTest_not_illegal
      (Status.Timeout, 4) (by decide)⟩

/-- C9: in the `allow_null = false` branches of the int32 schema, encoding
a value-less optional writes nothing to the buffer and surfaces no error —
the function cannot even represent one, its only output being the buffer
contents (the branch is the `// WRONG EMPTY DATA` comment in the source).
This refutes the claim's required behavior and documents the code defect
the spec itself flags. -/
theorem encode_null_disallowed_writes_nothing :
    (∀ buf : List Nat, encodeKeyInt32 false none buf = buf)
    ∧ (∀ buf : List Nat, encodeValueInt32 false none buf = buf) :=
  ⟨fun _ => rfl, fun _ => rfl⟩

/-- C10: every batch operation invoked on an empty input produces an empty
sub-batch vector, yet still runs the inline
`ProcessSubBatchX(sub_batch_state.data())` call, which dereferences a
`SubBatchState` that does not exist — the embedded operations return
`none` (the undefined-behavior marker) instead of the claimed Ok with an
empty output. -/
theorem batch_empty_input_invalid_access :
    (∀ (lookup : Lookup) (call : Region → List Key → Status × List KVPair)
        (kvs0 : List KVPair), batchGet lookup call [] kvs0 = none)
    ∧ (∀ (lookup : Lookup) (call : Region → List KVPair → Status),
        batchPut lookup call [] = none)
    ∧ (∀ (lookup : Lookup)
        (call : Region → List KVPair → Status × List KeyOpState)
        (states0 : List KeyOpState),
        batchPutIfAbsent lookup call [] states0 = none)
    ∧ (∀ (lookup : Lookup) (call : Region → List Key → Status),
        batchDelete lookup call [] = none)
    ∧ (∀ (lookup : Lookup)
        (call : Region → List (KVPair × Key) → Status × List KeyOpState)
        (states0 : List KeyOpState),
        batchCompareAndSet lookup call [] [] states0 = none) :=
  ⟨fun _ _ _ => rfl, fun _ _ => rfl, fun _ _ _ => rfl, fun _ _ => rfl,
   fun _ _ _ => rfl⟩

end DingoSdk
